import Mathlib

/-
Verification development for the zNinja shielded-pool SDK (TypeScript).

The definitions below are a shallow embedding of the SDK's client-side
engine: field/byte serialization and the Poseidon hashing wrapper
(src/src/poseidon/solanaPoseidon.ts), the epoch Merkle tree
(src/src/merkle.ts), the note manager (src/src/noteManager.ts), the
witness/public-input builder (the prover module), the note-encryption
call sites (src/src/txBuilder.ts, crypto.ts), and the encrypted file
store (noteStore.ts).

Bytes are modelled as `List Nat` (each entry a byte value), machine
integers as `Nat` with explicit reductions where the source reduces,
and TypeScript `bigint` arithmetic as exact `Nat` arithmetic on the
u64/field domains the data model prescribes.

The Poseidon round constants (solana_poseidon_params.json) are not part
of the source snapshot, so the permutation core is a parameter
(`core : Nat → Nat → Nat` for the two-input hash); everything the
sources define around it — reduction of the inputs mod p, the final
`modPrime(state[0])`, and the big-endian 32-byte serialization — is
embedded faithfully, which is enough to settle the claims that touch
hashing.
-/

/-- BN254 scalar field prime `p` (solanaPoseidon.ts `BN254_PRIME`). -/
def BN254_PRIME : Nat :=
  21888242871839275222246405745257275088548364400416034343698204186575808495617

/-- Big-endian byte-list to integer (the source's `BigInt("0x" + hex)` on a
Buffer's hex dump). -/
def bytesToNatBE (bs : List Nat) : Nat :=
  bs.foldl (fun acc b => acc * 256 + b) 0

/-- Reduction mod p (solanaPoseidon.ts `modPrime`; the negative branch is dead
for the `Nat` domain used here). -/
def modPrime (v : Nat) : Nat := v % BN254_PRIME

/-- solanaPoseidon.ts `bytesToField`: interpret bytes big-endian, reduce mod p. -/
def bytesToField (bs : List Nat) : Nat := modPrime (bytesToNatBE bs)

/-- solanaPoseidon.ts `fieldToBytes`: `value.toString(16).padStart(64, "0")`
rendered to a 32-byte big-endian buffer.  Written as the explicit byte list so
that positional reasoning is definitional; it agrees with the source for every
value the source feeds it (always `< p < 2^256`). -/
def fieldToBytes (v : Nat) : List Nat :=
  [v / 2 ^ 248 % 256,
   v / 2 ^ 240 % 256,
   v / 2 ^ 232 % 256,
   v / 2 ^ 224 % 256,
   v / 2 ^ 216 % 256,
   v / 2 ^ 208 % 256,
   v / 2 ^ 200 % 256,
   v / 2 ^ 192 % 256,
   v / 2 ^ 184 % 256,
   v / 2 ^ 176 % 256,
   v / 2 ^ 168 % 256,
   v / 2 ^ 160 % 256,
   v / 2 ^ 152 % 256,
   v / 2 ^ 144 % 256,
   v / 2 ^ 136 % 256,
   v / 2 ^ 128 % 256,
   v / 2 ^ 120 % 256,
   v / 2 ^ 112 % 256,
   v / 2 ^ 104 % 256,
   v / 2 ^ 96 % 256,
   v / 2 ^ 88 % 256,
   v / 2 ^ 80 % 256,
   v / 2 ^ 72 % 256,
   v / 2 ^ 64 % 256,
   v / 2 ^ 56 % 256,
   v / 2 ^ 48 % 256,
   v / 2 ^ 40 % 256,
   v / 2 ^ 32 % 256,
   v / 2 ^ 24 % 256,
   v / 2 ^ 16 % 256,
   v / 2 ^ 8 % 256,
   v % 256]

/-- Two-input Poseidon hash on byte buffers (solanaPoseidon.ts
`poseidonHashBytes` at width 3): inputs are reduced into the field, the
permutation core runs (abstract, its constant table is not in the snapshot),
and the result — which the source returns as `modPrime(state[0])` — is
serialized big-endian into 32 bytes. -/
def poseidonHashBytes2 (core : Nat → Nat → Nat) (a b : List Nat) : List Nat :=
  fieldToBytes (modPrime (core (bytesToField a) (bytesToField b)))

/-- merkle.ts `hashNodes`: Poseidon over the two child hashes. -/
def hashNodes (core : Nat → Nat → Nat) (l r : List Nat) : List Nat :=
  poseidonHashBytes2 core l r

/-- merkle.ts `ZERO_HASHES_DEPTH_12`: the 13 hard-coded zero-hash constants,
level 0 through 12, decoded from their hex literals into byte values. -/
def ZERO_HASHES_DEPTH_12 : List (List Nat) :=
  [[0, 0, 0, 0, 0, 0, 0, 0, 0, 0, 0, 0, 0, 0, 0, 0, 0, 0, 0, 0, 0, 0, 0, 0, 0, 0, 0, 0, 0, 0, 0, 0],
   [130, 154, 1, 250, 228, 248, 226, 43, 27, 76, 165, 173, 91, 84, 165, 131, 78, 224, 152, 167, 123, 115, 91, 213, 116, 49, 167, 101, 109, 41, 161, 8],
   [80, 180, 254, 174, 183, 151, 82, 229, 123, 24, 44, 98, 7, 166, 152, 78, 191, 94, 109, 201, 215, 229, 108, 66, 136, 150, 102, 80, 152, 67, 183, 24],
   [245, 111, 221, 89, 163, 253, 120, 251, 192, 102, 179, 28, 32, 160, 220, 2, 210, 250, 182, 48, 149, 102, 78, 135, 242, 178, 240, 129, 158, 28, 194, 45],
   [110, 88, 234, 59, 103, 185, 212, 46, 227, 64, 178, 47, 204, 121, 184, 122, 140, 228, 122, 122, 109, 4, 4, 203, 29, 99, 252, 22, 192, 185, 82, 32],
   [37, 132, 186, 12, 74, 180, 105, 226, 213, 211, 193, 225, 27, 50, 138, 4, 63, 92, 234, 13, 17, 8, 83, 158, 236, 140, 4, 107, 19, 189, 227, 31],
   [198, 123, 74, 104, 202, 32, 61, 240, 51, 94, 111, 182, 36, 122, 130, 150, 62, 80, 89, 255, 161, 142, 26, 242, 207, 185, 133, 129, 254, 165, 170, 0],
   [77, 214, 11, 70, 225, 121, 188, 80, 144, 34, 40, 76, 75, 163, 124, 153, 146, 178, 225, 180, 243, 38, 20, 128, 220, 24, 194, 179, 70, 169, 160, 28],
   [77, 199, 105, 95, 222, 183, 99, 229, 133, 193, 250, 29, 35, 92, 66, 209, 150, 145, 122, 205, 136, 103, 205, 207, 32, 181, 252, 167, 89, 74, 52, 18],
   [54, 63, 5, 212, 210, 204, 167, 180, 13, 135, 84, 97, 129, 172, 209, 79, 29, 33, 249, 83, 92, 61, 19, 196, 93, 251, 179, 42, 250, 163, 197, 22],
   [190, 171, 114, 180, 49, 21, 132, 161, 141, 16, 77, 191, 105, 239, 105, 105, 8, 64, 253, 159, 196, 2, 99, 181, 129, 34, 5, 36, 120, 240, 129, 23],
   [228, 244, 77, 241, 92, 212, 9, 105, 212, 241, 190, 161, 17, 14, 166, 107, 164, 226, 117, 236, 56, 57, 174, 36, 61, 114, 205, 34, 240, 31, 13, 33],
   [177, 89, 55, 44, 13, 53, 50, 76, 143, 95, 226, 63, 243, 253, 248, 153, 1, 33, 141, 61, 84, 78, 175, 170, 17, 92, 8, 242, 221, 246, 226, 5]]

/-- The canonical zero-hash sequence as the specification lists it (§8,
property 8): thirteen 32-byte constants given by their hex strings, decoded
to bytes here.  This definition follows the spec text, for comparison with
the constant table embedded from merkle.ts. -/
def specCanonicalZeroHashes : List (List Nat) :=
  [[0, 0, 0, 0, 0, 0, 0, 0, 0, 0, 0, 0, 0, 0, 0, 0, 0, 0, 0, 0, 0, 0, 0, 0, 0, 0, 0, 0, 0, 0, 0, 0],
   [130, 154, 1, 250, 228, 248, 226, 43, 27, 76, 165, 173, 91, 84, 165, 131, 78, 224, 152, 167, 123, 115, 91, 213, 116, 49, 167, 101, 109, 41, 161, 8],
   [80, 180, 254, 174, 183, 151, 82, 229, 123, 24, 44, 98, 7, 166, 152, 78, 191, 94, 109, 201, 215, 229, 108, 66, 136, 150, 102, 80, 152, 67, 183, 24],
   [245, 111, 221, 89, 163, 253, 120, 251, 192, 102, 179, 28, 32, 160, 220, 2, 210, 250, 182, 48, 149, 102, 78, 135, 242, 178, 240, 129, 158, 28, 194, 45],
   [110, 88, 234, 59, 103, 185, 212, 46, 227, 64, 178, 47, 204, 121, 184, 122, 140, 228, 122, 122, 109, 4, 4, 203, 29, 99, 252, 22, 192, 185, 82, 32],
   [37, 132, 186, 12, 74, 180, 105, 226, 213, 211, 193, 225, 27, 50, 138, 4, 63, 92, 234, 13, 17, 8, 83, 158, 236, 140, 4, 107, 19, 189, 227, 31],
   [198, 123, 74, 104, 202, 32, 61, 240, 51, 94, 111, 182, 36, 122, 130, 150, 62, 80, 89, 255, 161, 142, 26, 242, 207, 185, 133, 129, 254, 165, 170, 0],
   [77, 214, 11, 70, 225, 121, 188, 80, 144, 34, 40, 76, 75, 163, 124, 153, 146, 178, 225, 180, 243, 38, 20, 128, 220, 24, 194, 179, 70, 169, 160, 28],
   [77, 199, 105, 95, 222, 183, 99, 229, 133, 193, 250, 29, 35, 92, 66, 209, 150, 145, 122, 205, 136, 103, 205, 207, 32, 181, 252, 167, 89, 74, 52, 18],
   [54, 63, 5, 212, 210, 204, 167, 180, 13, 135, 84, 97, 129, 172, 209, 79, 29, 33, 249, 83, 92, 61, 19, 196, 93, 251, 179, 42, 250, 163, 197, 22],
   [190, 171, 114, 180, 49, 21, 132, 161, 141, 16, 77, 191, 105, 239, 105, 105, 8, 64, 253, 159, 196, 2, 99, 181, 129, 34, 5, 36, 120, 240, 129, 23],
   [228, 244, 77, 241, 92, 212, 9, 105, 212, 241, 190, 161, 17, 14, 166, 107, 164, 226, 117, 236, 56, 57, 174, 36, 61, 114, 205, 34, 240, 31, 13, 33],
   [177, 89, 55, 44, 13, 53, 50, 76, 143, 95, 226, 63, 243, 253, 248, 153, 1, 33, 141, 61, 84, 78, 175, 170, 17, 92, 8, 242, 221, 246, 226, 5]]

/-- Leading byte of any value the Poseidon wrapper serializes: the output is a
big-endian encoding of a residue mod p, and `(p - 1) / 2^248 = 48`, so the
first byte never exceeds 0x30. -/
theorem hashNodes_headByte_le (core : Nat → Nat → Nat) (l r : List Nat) :
    (hashNodes core l r).getD 0 0 ≤ 48 := by
  show modPrime (core (bytesToField l) (bytesToField r)) / 2 ^ 248 % 256 ≤ 48
  set v := core (bytesToField l) (bytesToField r) with hv
  have hlt : modPrime v < BN254_PRIME := by
    unfold modPrime
    exact Nat.mod_lt _ (by norm_num [BN254_PRIME])
  have hdiv : modPrime v / 2 ^ 248 ≤ 48 := by
    have hle : modPrime v ≤ BN254_PRIME - 1 := by omega
    calc modPrime v / 2 ^ 248 ≤ (BN254_PRIME - 1) / 2 ^ 248 :=
          Nat.div_le_div_right hle
      _ = 48 := by norm_num [BN254_PRIME]
  have : modPrime v / 2 ^ 248 % 256 = modPrime v / 2 ^ 248 :=
    Nat.mod_eq_of_lt (by omega)
  omega

/-- types.ts `MERKLE_DEPTH`. -/
def MERKLE_DEPTH : Nat := 12

/-- merkle.ts `EpochState` (Active / Frozen / Finalized). -/
inductive EpochState where
  | Active
  | Frozen
  | Finalized
deriving DecidableEq

/-- merkle.ts `EpochMerkleTree` state.  The source stores leaves in a
`Map<number, Uint8Array>` together with `nextIndex`; every mutation
(`insert`, `insertMany`, `clear`) keeps the map contiguous on
`0 .. nextIndex - 1`, so the map is embedded as a list with
`nextIndex = leaves.length`. -/
structure EpochMerkleTree where
  epoch : Nat
  leaves : List (List Nat)
  roots : List (List Nat)
  finalRoot : Option (List Nat)
  state : EpochState

/-- merkle.ts `nextIndex` under the contiguous-map embedding. -/
def EpochMerkleTree.nextIndex (t : EpochMerkleTree) : Nat := t.leaves.length

/-- Level width in `computeRoot`: `Math.ceil(currentCount / 2) || 1`. -/
def crLevelSize (c : Nat) : Nat :=
  if (c + 1) / 2 = 0 then 1 else (c + 1) / 2

/-- Level width in `getProof`: `Math.max(1, Math.ceil((levelNodes.length || 1) / 2))`. -/
def gpLevelSize (c : Nat) : Nat :=
  max 1 (((if c = 0 then 1 else c) + 1) / 2)

/-- One level of the bottom-up combine: pair neighbours, a missing child is the
level's zero hash (`levelNodes[2i] || zeroHashes[level]`). -/
def nextLevelNodes (core : Nat → Nat → Nat) (z : List Nat)
    (nodes : List (List Nat)) (size : Nat) : List (List Nat) :=
  (List.range size).map
    (fun i => hashNodes core (nodes.getD (2 * i) z) (nodes.getD (2 * i + 1) z))

/-- Level iteration of `computeRoot`, consuming the per-level zero hashes. -/
def buildLevelsCR (core : Nat → Nat → Nat) :
    List (List Nat) → List (List Nat) → List (List Nat)
  | [], nodes => nodes
  | z :: zs, nodes =>
      buildLevelsCR core zs (nextLevelNodes core z nodes (crLevelSize nodes.length))

/-- Level iteration of `getProof` (identical except for the level-width
expression, which agrees with `computeRoot`'s; see `crLevelSize_eq`). -/
def buildLevelsGP (core : Nat → Nat → Nat) :
    List (List Nat) → List (List Nat) → List (List Nat)
  | [], nodes => nodes
  | z :: zs, nodes =>
      buildLevelsGP core zs (nextLevelNodes core z nodes (gpLevelSize nodes.length))

/-- merkle.ts `computeRoot` on a leaf list: twelve combine levels, then
`levelNodes[0] || zeroHashes[12]`. -/
def computeRootList (core : Nat → Nat → Nat) (leaves : List (List Nat)) : List Nat :=
  (buildLevelsCR core (ZERO_HASHES_DEPTH_12.take MERKLE_DEPTH) leaves).getD 0
    (ZERO_HASHES_DEPTH_12.getD MERKLE_DEPTH [])

/-- merkle.ts `EpochMerkleTree.computeRoot`. -/
def EpochMerkleTree.computeRoot (core : Nat → Nat → Nat) (t : EpochMerkleTree) : List Nat :=
  computeRootList core t.leaves

/-- Error outcomes of the tree operations (the source throws `Error` with a
message; only the cause matters here). -/
inductive TreeError where
  | notActive
  | epochFull
  | leafNotFound
deriving DecidableEq

/-- merkle.ts `EpochMerkleTree.insert`: only in `Active` state and below the
2^12-leaf capacity; appends the leaf, pushes the recomputed root, returns
`(leafIndex, root)`. -/
def EpochMerkleTree.insert (core : Nat → Nat → Nat) (t : EpochMerkleTree)
    (leaf : List Nat) : Except TreeError (Nat × List Nat × EpochMerkleTree) :=
  if t.state ≠ EpochState.Active then
    .error .notActive
  else if 2 ^ MERKLE_DEPTH ≤ t.nextIndex then
    .error .epochFull
  else
    let leafIndex := t.nextIndex
    let leaves1 := t.leaves ++ [leaf]
    let root := computeRootList core leaves1
    .ok (leafIndex, root, { t with leaves := leaves1, roots := t.roots ++ [root] })

/-- merkle.ts `EpochMerkleTree.insertMany`: stores every leaf at the successive
indices and bumps `nextIndex`, with no state or capacity check; recomputes and
pushes the root once, only when the batch is non-empty. -/
def EpochMerkleTree.insertMany (core : Nat → Nat → Nat) (t : EpochMerkleTree)
    (ls : List (List Nat)) : EpochMerkleTree :=
  let leaves1 := t.leaves ++ ls
  if 0 < ls.length then
    { t with leaves := leaves1, roots := t.roots ++ [computeRootList core leaves1] }
  else
    { t with leaves := leaves1 }

/-- merkle.ts `setFinalRoot`. -/
def EpochMerkleTree.setFinalRoot (t : EpochMerkleTree) (root : List Nat) : EpochMerkleTree :=
  { t with finalRoot := some root, state := EpochState.Finalized }

/-- merkle.ts fresh tree for an epoch (constructor). -/
def EpochMerkleTree.newTree (epoch : Nat) : EpochMerkleTree :=
  { epoch := epoch, leaves := [], roots := [], finalRoot := none, state := EpochState.Active }

/-- types.ts `MerkleProof`. -/
structure MerkleProofRec where
  leaf : List Nat
  leafIndex : Nat
  epoch : Nat
  siblings : List (List Nat)
  root : List Nat

/-- Sibling extraction loop of `getProof`: at each level record
`levelNodes[siblingIndex] || zeroHashes[level]`, then advance to the parent
level. -/
def proofSiblings (core : Nat → Nat → Nat) :
    List (List Nat) → List (List Nat) → Nat → List (List Nat)
  | [], _, _ => []
  | z :: zs, nodes, idx =>
      let sibIndex := if idx % 2 = 0 then idx + 1 else idx - 1
      nodes.getD sibIndex z ::
        proofSiblings core zs
          (nextLevelNodes core z nodes (gpLevelSize nodes.length)) (idx / 2)

/-- merkle.ts `EpochMerkleTree.getProof`: requires a stored leaf, collects the
twelve siblings bottom-up, and reports `finalRoot || levelNodes[0] ||
zeroHashes[12]` as the proof's root. -/
def EpochMerkleTree.getProof (core : Nat → Nat → Nat) (t : EpochMerkleTree)
    (leafIndex : Nat) : Except TreeError MerkleProofRec :=
  if leafIndex < t.leaves.length then
    let zs := ZERO_HASHES_DEPTH_12.take MERKLE_DEPTH
    .ok
      { leaf := t.leaves.getD leafIndex []
        leafIndex := leafIndex
        epoch := t.epoch
        siblings := proofSiblings core zs t.leaves leafIndex
        root :=
          match t.finalRoot with
          | some fr => fr
          | none =>
              (buildLevelsGP core zs t.leaves).getD 0
                (ZERO_HASHES_DEPTH_12.getD MERKLE_DEPTH []) }
  else
    .error .leafNotFound

/-- Roll-up loop of `verifyProof`: combine with each sibling according to the
parity of the running index. -/
def verifyFold (core : Nat → Nat → Nat) :
    List Nat → Nat → List (List Nat) → List Nat
  | cur, _, [] => cur
  | cur, idx, sib :: sibs =>
      verifyFold core
        (if idx % 2 = 0 then hashNodes core cur sib else hashNodes core sib cur)
        (idx / 2) sibs

/-- merkle.ts `EpochMerkleTree.verifyProof` (static): recompute the root from
the leaf and siblings and compare with the proof's root. -/
def verifyProof (core : Nat → Nat → Nat) (proof : MerkleProofRec) : Bool :=
  verifyFold core proof.leaf proof.leafIndex proof.siblings == proof.root

theorem nextLevelNodes_length (core : Nat → Nat → Nat) (z : List Nat)
    (nodes : List (List Nat)) (size : Nat) :
    (nextLevelNodes core z nodes size).length = size := by
  simp [nextLevelNodes]

theorem crLevelSize_eq (c : Nat) : crLevelSize c = gpLevelSize c := by
  unfold crLevelSize gpLevelSize
  rcases c with _ | c
  · norm_num
  · rw [if_neg (show ¬(c + 1 + 1) / 2 = 0 by omega), if_neg (Nat.succ_ne_zero c)]
    omega

theorem buildLevelsCR_eq (core : Nat → Nat → Nat) :
    ∀ (zs : List (List Nat)) (nodes : List (List Nat)),
      buildLevelsCR core zs nodes = buildLevelsGP core zs nodes := by
  intro zs
  induction zs with
  | nil => intro nodes; rfl
  | cons z zs ih =>
      intro nodes
      simp only [buildLevelsCR, buildLevelsGP, crLevelSize_eq]
      exact ih _

theorem idx_half_lt_gpLevelSize {idx c : Nat} (h : idx < c) :
    idx / 2 < gpLevelSize c := by
  unfold gpLevelSize
  rcases c with _ | c
  · omega
  · rw [if_neg (Nat.succ_ne_zero c)]
    omega

theorem nextLevelNodes_getD (core : Nat → Nat → Nat) (z : List Nat)
    (nodes : List (List Nat)) {size j : Nat} (hj : j < size) (d : List Nat) :
    (nextLevelNodes core z nodes size).getD j d
      = hashNodes core (nodes.getD (2 * j) z) (nodes.getD (2 * j + 1) z) := by
  unfold nextLevelNodes
  rw [List.getD_eq_getElem _ _ (by simpa using hj)]
  simp

theorem verifyFold_proofSiblings (core : Nat → Nat → Nat) :
    ∀ (zs : List (List Nat)) (nodes : List (List Nat)) (idx : Nat),
      idx < nodes.length →
      idx / 2 ^ zs.length < (buildLevelsGP core zs nodes).length ∧
      verifyFold core (nodes.getD idx []) idx (proofSiblings core zs nodes idx)
        = (buildLevelsGP core zs nodes).getD (idx / 2 ^ zs.length) [] := by
  intro zs
  induction zs with
  | nil =>
      intro nodes idx h
      simpa [buildLevelsGP, proofSiblings, verifyFold] using h
  | cons z zs ih =>
      intro nodes idx h
      have hhalf : idx / 2 < (nextLevelNodes core z nodes (gpLevelSize nodes.length)).length := by
        rw [nextLevelNodes_length]
        exact idx_half_lt_gpLevelSize h
      have hstep :
          (if idx % 2 = 0 then
              hashNodes core (nodes.getD idx [])
                (nodes.getD (if idx % 2 = 0 then idx + 1 else idx - 1) z)
            else
              hashNodes core (nodes.getD (if idx % 2 = 0 then idx + 1 else idx - 1) z)
                (nodes.getD idx []))
            = (nextLevelNodes core z nodes (gpLevelSize nodes.length)).getD (idx / 2) [] := by
        rw [nextLevelNodes_getD core z nodes (by simpa [nextLevelNodes_length] using hhalf) []]
        rcases Nat.mod_two_eq_zero_or_one idx with h2 | h2
        · have h2i : 2 * (idx / 2) = idx := by omega
          rw [if_pos h2, if_pos h2, h2i]
          rw [List.getD_eq_getElem nodes z h, List.getD_eq_getElem nodes ([] : List Nat) h]
        · have h2i : 2 * (idx / 2) = idx - 1 := by omega
          have h2i1 : idx - 1 + 1 = idx := by omega
          rw [if_neg (by omega), if_neg (by omega), h2i, h2i1]
          rw [List.getD_eq_getElem nodes z h, List.getD_eq_getElem nodes ([] : List Nat) h]
      have hrec := ih (nextLevelNodes core z nodes (gpLevelSize nodes.length)) (idx / 2) hhalf
      constructor
      · have : idx / 2 / 2 ^ zs.length = idx / 2 ^ (zs.length + 1) := by
          rw [Nat.div_div_eq_div_mul, pow_succ']
        simpa [buildLevelsGP, this] using hrec.1
      · show verifyFold core (nodes.getD idx []) idx
            (nodes.getD (if idx % 2 = 0 then idx + 1 else idx - 1) z ::
              proofSiblings core zs
                (nextLevelNodes core z nodes (gpLevelSize nodes.length)) (idx / 2))
          = _
        rw [verifyFold, hstep]
        have : idx / 2 / 2 ^ zs.length = idx / 2 ^ (zs.length + 1) := by
          rw [Nat.div_div_eq_div_mul, pow_succ']
        simpa [buildLevelsGP, this] using hrec.2

/-- C6: for a stored leaf `i` (within the depth-12 capacity), `getProof`
succeeds; when no final root is set the proof's root is `computeRoot()` and
`verifyProof(getProof(i))` is true; when a final root is set the proof's root
is that final root, and verification succeeds exactly when the final root
coincides with the root recomputed from the stored leaves. -/
theorem C6_getProof_verifyProof (core : Nat → Nat → Nat) (t : EpochMerkleTree) (i : Nat)
    (hstored : i < t.leaves.length) (hcap : i < 2 ^ MERKLE_DEPTH) :
    ∃ pf : MerkleProofRec,
      EpochMerkleTree.getProof core t i = Except.ok pf ∧
      pf.leafIndex = i ∧ pf.leaf = t.leaves.getD i [] ∧ pf.epoch = t.epoch ∧
      (t.finalRoot = none →
        pf.root = EpochMerkleTree.computeRoot core t ∧ verifyProof core pf = true) ∧
      (∀ fr, t.finalRoot = some fr →
        pf.root = fr ∧
          (verifyProof core pf = true ↔ EpochMerkleTree.computeRoot core t = fr)) := by
  have hzs : (ZERO_HASHES_DEPTH_12.take MERKLE_DEPTH).length = 12 := by
    rw [List.length_take]
    decide
  obtain ⟨hlt, heq⟩ :=
    verifyFold_proofSiblings core (ZERO_HASHES_DEPTH_12.take MERKLE_DEPTH) t.leaves i hstored
  have hdiv : i / 2 ^ (ZERO_HASHES_DEPTH_12.take MERKLE_DEPTH).length = 0 := by
    rw [hzs]
    exact Nat.div_eq_of_lt (by simpa [MERKLE_DEPTH] using hcap)
  rw [hdiv] at hlt heq
  have hgd :
      (buildLevelsGP core (ZERO_HASHES_DEPTH_12.take MERKLE_DEPTH) t.leaves).getD 0 [] =
      (buildLevelsGP core (ZERO_HASHES_DEPTH_12.take MERKLE_DEPTH) t.leaves).getD 0
        (ZERO_HASHES_DEPTH_12.getD MERKLE_DEPTH []) := by
    rw [List.getD_eq_getElem _ _ hlt, List.getD_eq_getElem _ _ hlt]
  have hcr :
      EpochMerkleTree.computeRoot core t =
      (buildLevelsGP core (ZERO_HASHES_DEPTH_12.take MERKLE_DEPTH) t.leaves).getD 0
        (ZERO_HASHES_DEPTH_12.getD MERKLE_DEPTH []) := by
    unfold EpochMerkleTree.computeRoot computeRootList
    rw [buildLevelsCR_eq]
  unfold EpochMerkleTree.getProof
  rw [if_pos hstored]
  refine ⟨_, rfl, rfl, rfl, rfl, ?_, ?_⟩
  · intro hnone
    constructor
    · show (match t.finalRoot with
            | some fr => fr
            | none => _) = _
      rw [hnone, hcr]
    · show (verifyFold core (t.leaves.getD i []) i
          (proofSiblings core (ZERO_HASHES_DEPTH_12.take MERKLE_DEPTH) t.leaves i) ==
          (match t.finalRoot with
            | some fr => fr
            | none => _)) = true
      rw [hnone, heq, hgd]
      exact beq_self_eq_true _
  · intro fr hfr
    constructor
    · show (match t.finalRoot with
            | some fr => fr
            | none => _) = _
      rw [hfr]
    · show (verifyFold core (t.leaves.getD i []) i
          (proofSiblings core (ZERO_HASHES_DEPTH_12.take MERKLE_DEPTH) t.leaves i) ==
          (match t.finalRoot with
            | some fr => fr
            | none => _)) = true ↔ _
      rw [hfr, heq, hgd, ← hcr, beq_iff_eq]

/-- C6 counterexample: on a finalized tree whose stored final root (here the
all-0xFF buffer, as `setFinalRoot` accepts any 32 bytes and `syncEpoch` feeds
it the on-chain value) differs from the locally recomputed root,
`verify_proof(get_proof(0))` is false — `getProof` reports `finalRoot` as the
proof root while `verifyProof` recomputes from the leaf and siblings.  The
Poseidon core is instantiated with the zero function; the discrepancy is
independent of the core. -/
theorem C6_finalRoot_counterexample :
    (EpochMerkleTree.getProof (fun _ _ => 0)
        (EpochMerkleTree.setFinalRoot
          (EpochMerkleTree.insertMany (fun _ _ => 0) (EpochMerkleTree.newTree 0)
            [List.replicate 32 7])
          (List.replicate 32 255))
        0).map (verifyProof (fun _ _ => 0)) = Except.ok false := by
  rfl

/-- C6 witness: the round-trip theorem applied to the concrete one-leaf tree
(no final root): `getProof 0` succeeds and verifies. -/
theorem C6_getProof_verifyProof_witness :
    ∃ pf : MerkleProofRec,
      EpochMerkleTree.getProof (fun _ _ => 0)
          (EpochMerkleTree.insertMany (fun _ _ => 0) (EpochMerkleTree.newTree 0)
            [List.replicate 32 7]) 0 = Except.ok pf ∧
      verifyProof (fun _ _ => 0) pf = true := by
  obtain ⟨pf, hok, -, -, -, hroot, -⟩ :=
    C6_getProof_verifyProof (fun _ _ => 0)
      (EpochMerkleTree.insertMany (fun _ _ => 0) (EpochMerkleTree.newTree 0)
        [List.replicate 32 7]) 0 (by decide) (by decide)
  exact ⟨pf, hok, (hroot rfl).2⟩

/-- C7 counterexample: the second zero-hash constant cannot equal
`hash_nodes(Z[0], Z[0])` for any Poseidon permutation core: the client's
`hashNodes` serializes a residue mod p big-endian, so its first output byte is
at most 0x30, while `ZERO_HASHES_DEPTH_12[1]` begins with 0x82 (its big-endian
value exceeds p). -/
theorem C7_chain_counterexample :
    ¬ ∃ core : Nat → Nat → Nat,
        hashNodes core (ZERO_HASHES_DEPTH_12.getD 0 []) (ZERO_HASHES_DEPTH_12.getD 0 [])
          = ZERO_HASHES_DEPTH_12.getD 1 [] := by
  rintro ⟨core, h⟩
  have h0 := hashNodes_headByte_le core (ZERO_HASHES_DEPTH_12.getD 0 [])
    (ZERO_HASHES_DEPTH_12.getD 0 [])
  rw [h] at h0
  exact absurd h0 (by decide)

/-- C7 amended: the 13 hard-coded constants are exactly the canonical sequence
of §8 and Z[0] is the 32-byte zero buffer, but the chain relation
`Z[i] = hash_nodes(Z[i-1], Z[i-1])` fails for the client's `hash_nodes`
regardless of the (missing) Poseidon parameter table: already `Z[1]` is not a
possible `hash_nodes` output, because `hash_nodes` serializes a field residue
big-endian (first byte ≤ 0x30) while `Z[1]` starts with byte 0x82. -/
theorem C7_constants_canonical_chain_broken :
    ZERO_HASHES_DEPTH_12 = specCanonicalZeroHashes ∧
    ZERO_HASHES_DEPTH_12.getD 0 [] = List.replicate 32 0 ∧
    ∀ core : Nat → Nat → Nat,
      hashNodes core (ZERO_HASHES_DEPTH_12.getD 0 []) (ZERO_HASHES_DEPTH_12.getD 0 [])
        ≠ ZERO_HASHES_DEPTH_12.getD 1 [] := by
  refine ⟨rfl, by decide, ?_⟩
  intro core h
  have h0 := hashNodes_headByte_le core (ZERO_HASHES_DEPTH_12.getD 0 [])
    (ZERO_HASHES_DEPTH_12.getD 0 [])
  rw [h] at h0
  exact absurd h0 (by decide)

/-- C10: `insertMany` performs no state or capacity check — on any tree
(Frozen, Finalized, or already at 4096 leaves) a non-empty batch is stored,
`nextIndex` advances by the batch size (possibly past 4096), and exactly one
new root is pushed; `insert`, by contrast, fails exactly when the state is not
Active or the tree is full. -/
theorem C10_insertMany_unchecked (core : Nat → Nat → Nat) (t : EpochMerkleTree)
    (ls : List (List Nat)) (hne : ls ≠ []) :
    (EpochMerkleTree.insertMany core t ls).leaves = t.leaves ++ ls ∧
    (EpochMerkleTree.insertMany core t ls).nextIndex = t.nextIndex + ls.length ∧
    (EpochMerkleTree.insertMany core t ls).roots
      = t.roots ++ [computeRootList core (t.leaves ++ ls)] ∧
    (EpochMerkleTree.insertMany core t ls).state = t.state ∧
    (EpochMerkleTree.insertMany core t ls).finalRoot = t.finalRoot ∧
    (∀ leaf, (∃ e, EpochMerkleTree.insert core t leaf = Except.error e) ↔
       (t.state ≠ EpochState.Active ∨ 2 ^ MERKLE_DEPTH ≤ t.nextIndex)) := by
  have hpos : 0 < ls.length := List.length_pos.mpr hne
  refine ⟨?_, ?_, ?_, ?_, ?_, ?_⟩
  · simp [EpochMerkleTree.insertMany, hpos]
  · simp [EpochMerkleTree.insertMany, EpochMerkleTree.nextIndex, hpos]
  · simp [EpochMerkleTree.insertMany, hpos]
  · simp [EpochMerkleTree.insertMany, hpos]
  · simp [EpochMerkleTree.insertMany, hpos]
  · intro leaf
    unfold EpochMerkleTree.insert
    by_cases hs : t.state = EpochState.Active
    · by_cases hful : 2 ^ MERKLE_DEPTH ≤ t.nextIndex
      · simp [hs, hful]
      · simp [hs, hful]
    · simp [hs]

/-- C10 witness: a frozen tree accepts a one-leaf `insertMany` (its `nextIndex`
becomes 1) while `insert` on the same tree fails. -/
theorem C10_insertMany_unchecked_witness :
    (EpochMerkleTree.insertMany (fun _ _ => 0)
        { epoch := 0, leaves := [], roots := [], finalRoot := none,
          state := EpochState.Frozen } [[1]]).nextIndex
      = EpochMerkleTree.nextIndex
          { epoch := 0, leaves := [], roots := [], finalRoot := none,
            state := EpochState.Frozen } + [[1]].length ∧
    (∃ e, EpochMerkleTree.insert (fun _ _ => 0)
        { epoch := 0, leaves := [], roots := [], finalRoot := none,
          state := EpochState.Frozen } [1] = Except.error e) := by
  have h := C10_insertMany_unchecked (fun _ _ => 0)
    { epoch := 0, leaves := [], roots := [], finalRoot := none,
      state := EpochState.Frozen } [[1]] (by simp)
  exact ⟨h.2.1, (h.2.2.2.2.2 [1]).mpr (Or.inl (by simp))⟩

/-- types.ts `Note` (epoch-aware variant; the fields the claims touch). -/
structure Note where
  value : Nat
  token : List Nat
  owner : List Nat
  blinding : List Nat
  randomness : List Nat
  commitment : List Nat
  nullifier : List Nat
  memo : Option (List Nat)
  epoch : Option Nat
  leafIndex : Option Nat
  spent : Bool
deriving DecidableEq

/-- types.ts `SpendingKeys`. -/
structure SpendingKeys where
  spendingKey : List Nat
  viewingKey : List Nat
  nullifierKey : List Nat
  shieldedAddress : List Nat
deriving DecidableEq

/-- noteManager.ts `RENEWAL_WARNING_EPOCHS`. -/
def RENEWAL_WARNING_EPOCHS : Nat := 2

/-- config.ts `EPOCH_TIMING.DEFAULT_DURATION_SLOTS`. -/
def DEFAULT_DURATION_SLOTS : Nat := 3024000

/-- config.ts `EPOCH_TIMING.DEFAULT_EXPIRY_SLOTS`. -/
def DEFAULT_EXPIRY_SLOTS : Nat := 38880000

/-- noteManager.ts `NoteManager` state. -/
structure NoteManager where
  notes : List Note
  pendingNotes : List Note
  spendingKeys : Option SpendingKeys
  currentEpoch : Nat
  epochExpirySlots : Nat

/-- The balance folds of noteManager.ts
(`reduce((sum, note) => sum + note.value, 0n)`). -/
def sumValues (l : List Note) : Nat := (l.map Note.value).sum

/-- noteManager.ts `calculateBalance`: sum over all non-spent notes (no epoch
or expiry filter appears in the source). -/
def NoteManager.calculateBalance (nm : NoteManager) : Nat :=
  sumValues (nm.notes.filter (fun n => !n.spent))

/-- noteManager.ts `getExpiringNotes`:
`noteEpoch <= currentEpoch + RENEWAL_WARNING_EPOCHS && noteEpoch < currentEpoch`
over non-spent notes, with `noteEpoch = n.epoch ?? 0`. -/
def NoteManager.getExpiringNotes (nm : NoteManager) : List Note :=
  nm.notes.filter (fun n =>
    if n.spent then false
    else
      decide (n.epoch.getD 0 ≤ nm.currentEpoch + RENEWAL_WARNING_EPOCHS) &&
      decide (n.epoch.getD 0 < nm.currentEpoch))

/-- noteManager.ts `getExpiredNotes` cut-off
`currentEpoch - epochExpirySlots / DEFAULT_DURATION_SLOTS`.  The source
subtracts bigints; since note epochs are naturals, a negative cut-off and the
truncated-to-zero cut-off reject exactly the same notes, so `Nat` subtraction
is faithful here. -/
def NoteManager.expiredBefore (nm : NoteManager) : Nat :=
  nm.currentEpoch - nm.epochExpirySlots / DEFAULT_DURATION_SLOTS

/-- noteManager.ts `getExpiredNotes`: non-spent notes with
`(n.epoch ?? 0) < expiredBefore`. -/
def NoteManager.getExpiredNotes (nm : NoteManager) : List Note :=
  nm.notes.filter (fun n =>
    if n.spent then false
    else decide (n.epoch.getD 0 < nm.expiredBefore))

/-- Test helper mirroring the repository tests' `mockNote`: a confirmed note
with the given value, commitment and epoch. -/
def mkNote (value : Nat) (commitment : List Nat) (epoch : Option Nat) : Note :=
  { value := value, token := List.replicate 32 0, owner := List.replicate 32 1,
    blinding := List.replicate 32 4, randomness := List.replicate 32 4,
    commitment := commitment, nullifier := List.replicate 32 0,
    memo := none, epoch := epoch, leafIndex := none, spent := false }

theorem sumValues_filter_split (q : Note → Bool) :
    ∀ l : List Note, ∀ p : Note → Bool,
      sumValues (l.filter p)
        = sumValues (l.filter (fun n => p n && q n))
          + sumValues (l.filter (fun n => p n && !q n)) := by
  intro l
  induction l with
  | nil => intro p; simp [sumValues]
  | cons n rest ih =>
      intro p
      have hrest := ih p
      simp only [sumValues] at hrest
      by_cases hp : p n <;> by_cases hq : q n <;>
        simp only [List.filter_cons, hp, hq, Bool.and_self, Bool.and_true, Bool.and_false,
          Bool.true_and, Bool.false_and, Bool.not_true, Bool.not_false, if_true, if_false,
          sumValues, List.map_cons, List.sum_cons, Bool.false_eq_true, reduceIte] <;>
        omega

theorem getExpiredNotes_eq_filter (nm : NoteManager) :
    NoteManager.getExpiredNotes nm
      = nm.notes.filter
          (fun n => !n.spent && decide (n.epoch.getD 0 < NoteManager.expiredBefore nm)) := by
  unfold NoteManager.getExpiredNotes
  apply List.filter_congr
  intro n _
  cases hs : n.spent <;> simp [hs]

/-- C4 amended: `calculateBalance` sums the values of all non-spent notes —
expired notes included — so the balance equals the expired-note total plus the
non-expired unspent total (rather than excluding the expired notes). -/
theorem C4_balance_sums_all_unspent (nm : NoteManager) :
    NoteManager.calculateBalance nm = sumValues (nm.notes.filter (fun n => !n.spent)) ∧
    NoteManager.calculateBalance nm
      = sumValues (NoteManager.getExpiredNotes nm)
        + sumValues (nm.notes.filter
            (fun n => !n.spent && !(decide (n.epoch.getD 0 < NoteManager.expiredBefore nm)))) := by
  refine ⟨rfl, ?_⟩
  unfold NoteManager.calculateBalance
  rw [getExpiredNotes_eq_filter]
  exact sumValues_filter_split _ nm.notes _

/-- C4 counterexample: one unspent note of value 100 from epoch 0 with the
current epoch at 20 (cut-off: `20 - 38880000/3024000 = 8`, so the note is
expired); `calculateBalance` still returns 100, so the claimed identity
`balance + Σ expired = Σ unspent` fails (100 + 100 ≠ 100). -/
theorem C4_balance_counterexample :
    NoteManager.getExpiredNotes
        { notes := [mkNote 100 (List.replicate 32 5) (some 0)], pendingNotes := [],
          spendingKeys := none, currentEpoch := 20,
          epochExpirySlots := DEFAULT_EXPIRY_SLOTS }
      = [mkNote 100 (List.replicate 32 5) (some 0)] ∧
    NoteManager.calculateBalance
        { notes := [mkNote 100 (List.replicate 32 5) (some 0)], pendingNotes := [],
          spendingKeys := none, currentEpoch := 20,
          epochExpirySlots := DEFAULT_EXPIRY_SLOTS }
      = 100 ∧
    ¬(NoteManager.calculateBalance
        { notes := [mkNote 100 (List.replicate 32 5) (some 0)], pendingNotes := [],
          spendingKeys := none, currentEpoch := 20,
          epochExpirySlots := DEFAULT_EXPIRY_SLOTS }
      + sumValues (NoteManager.getExpiredNotes
          { notes := [mkNote 100 (List.replicate 32 5) (some 0)], pendingNotes := [],
            spendingKeys := none, currentEpoch := 20,
            epochExpirySlots := DEFAULT_EXPIRY_SLOTS })
      = sumValues (List.filter (fun n => !n.spent)
          [mkNote 100 (List.replicate 32 5) (some 0)])) := by
  refine ⟨by decide, by decide, by decide⟩

/-- C8 amended: a note is classified as expiring iff it is a stored non-spent
note whose epoch (defaulting to 0) is strictly older than the current epoch;
the `≤ current + 2` warning-threshold conjunct in the source is implied by
`< current` and never excludes anything, so arbitrarily old notes are also
"expiring". -/
theorem C8_expiring_iff_older (nm : NoteManager) (n : Note) :
    n ∈ NoteManager.getExpiringNotes nm ↔
      n ∈ nm.notes ∧ n.spent = false ∧ n.epoch.getD 0 < nm.currentEpoch := by
  unfold NoteManager.getExpiringNotes
  rw [List.mem_filter]
  constructor
  · rintro ⟨hmem, hcond⟩
    cases hs : n.spent
    · rw [hs] at hcond
      simp only [Bool.if_false_left, Bool.and_eq_true, Bool.not_eq_true,
        decide_eq_true_eq] at hcond
      exact ⟨hmem, rfl, hcond.2.2⟩
    · rw [hs] at hcond
      simp at hcond
  · rintro ⟨hmem, hs, hlt⟩
    refine ⟨hmem, ?_⟩
    rw [hs]
    simp only [Bool.false_eq_true, if_false, Bool.and_eq_true, decide_eq_true_eq]
    exact ⟨by omega, hlt⟩

/-- C8 counterexample: with the current epoch at 10, an unspent note from
epoch 0 — eight epochs older than the warning window `[8, 10)` — is still in
the expiring set. -/
theorem C8_expiring_counterexample :
    NoteManager.getExpiringNotes
        { notes := [mkNote 100 (List.replicate 32 5) (some 0)], pendingNotes := [],
          spendingKeys := none, currentEpoch := 10,
          epochExpirySlots := DEFAULT_EXPIRY_SLOTS }
      = [mkNote 100 (List.replicate 32 5) (some 0)] ∧
    (mkNote 100 (List.replicate 32 5) (some 0)).epoch.getD 0 + RENEWAL_WARNING_EPOCHS
      < (10 : Nat) := by
  refine ⟨by decide, by decide⟩

/-- Commitment de-duplication of noteManager.ts `selectNotes`: the source
walks the unspent list keeping a `Set` of seen commitment keys and drops
repeats, i.e. keeps the first note per commitment. -/
def dedupByCommitment : List Note → List (List Nat) → List Note
  | [], _ => []
  | n :: rest, seen =>
      if seen.contains n.commitment then dedupByCommitment rest seen
      else n :: dedupByCommitment rest (n.commitment :: seen)

/-- The comparator of `selectNotes`:
`Number((a.epoch ?? 0) - (b.epoch ?? 0))` then `Number(b.value - a.value)` —
epoch ascending, value descending. `noteLE a b` holds when the comparator
does not place `a` strictly after `b`. -/
def noteLE (a b : Note) : Prop :=
  a.epoch.getD 0 < b.epoch.getD 0 ∨
    (a.epoch.getD 0 = b.epoch.getD 0 ∧ b.value ≤ a.value)

instance : DecidableRel noteLE := fun a b => by
  unfold noteLE
  infer_instance

instance : IsTotal Note noteLE :=
  ⟨by intro a b; unfold noteLE; omega⟩

instance : IsTrans Note noteLE :=
  ⟨by intro a b c; unfold noteLE; omega⟩

/-- The `.sort(comparator)` call of `selectNotes`: `Array.prototype.sort` is
stable, embedded as the stable insertion sort over `noteLE`. -/
def sortNotes (l : List Note) : List Note := List.insertionSort noteLE l

/-- noteManager.ts `selectNotes` failure modes. -/
inductive SelectError where
  | invalidMinNotes
  | insufficientBalance
  | insufficientNoteCount
deriving DecidableEq

/-- The greedy loop of `selectNotes`, with the post-loop error choice folded
into the exhausted case: the source raises `Insufficient balance` when the
final accumulated sum is below `amount`, else `Insufficient note count`. -/
def selectLoop (amount minNotes : Nat) :
    List Note → List Note → Nat → Except SelectError (List Note)
  | [], _, sum =>
      if sum < amount then .error .insufficientBalance
      else .error .insufficientNoteCount
  | n :: rest, selected, sum =>
      let selected1 := selected ++ [n]
      let sum1 := sum + n.value
      if amount ≤ sum1 ∧ minNotes ≤ selected1.length then .ok selected1
      else selectLoop amount minNotes rest selected1 sum1

/-- The candidate list `selectNotes` iterates: unspent notes, de-duplicated by
commitment, sorted epoch-ascending then value-descending. -/
def NoteManager.selectCandidates (nm : NoteManager) : List Note :=
  sortNotes (dedupByCommitment (nm.notes.filter (fun n => !n.spent)) [])

/-- noteManager.ts `selectNotes`. -/
def NoteManager.selectNotes (nm : NoteManager) (amount minNotes : Nat) :
    Except SelectError (List Note) :=
  if minNotes < 1 then .error .invalidMinNotes
  else selectLoop amount minNotes (NoteManager.selectCandidates nm) [] 0

theorem selectLoop_ok_spec (amount minN : Nat) :
    ∀ (l sel : List Note) (sum : Nat) (r : List Note),
      sum = sumValues sel →
      ¬(amount ≤ sum ∧ minN ≤ sel.length) →
      selectLoop amount minN l sel sum = .ok r →
      ∃ j, 1 ≤ j ∧ j ≤ l.length ∧ r = sel ++ l.take j ∧
        amount ≤ sumValues r ∧ minN ≤ r.length ∧
        ∀ i, i < j →
          ¬(amount ≤ sumValues (sel ++ l.take i) ∧
            minN ≤ (sel ++ l.take i).length) := by
  intro l
  induction l with
  | nil =>
      intro sel sum r _ _ hrun
      unfold selectLoop at hrun
      split at hrun <;> cases hrun
  | cons n rest ih =>
      intro sel sum r hsum hsel hrun
      unfold selectLoop at hrun
      by_cases hc : amount ≤ sum + n.value ∧ minN ≤ (sel ++ [n]).length
      · rw [if_pos hc] at hrun
        cases hrun
        refine ⟨1, le_refl 1, by simp, by simp, ?_, hc.2, ?_⟩
        · have : sumValues (sel ++ [n]) = sumValues sel + n.value := by
            simp [sumValues]
          omega
        · intro i hi
          interval_cases i
          simpa [hsum] using hsel
      · rw [if_neg hc] at hrun
        have hsum1 : sum + n.value = sumValues (sel ++ [n]) := by
          simp only [sumValues] at hsum ⊢
          simp only [List.map_append, List.sum_append, List.map_cons, List.sum_cons,
            List.map_nil, List.sum_nil]
          omega
        obtain ⟨j, hj1, hj2, hj3, hj4, hj5, hj6⟩ :=
          ih (sel ++ [n]) (sum + n.value) r hsum1 hc hrun
        refine ⟨j + 1, by omega, by simpa using (by omega : j + 1 ≤ rest.length + 1), ?_,
          hj4, hj5, ?_⟩
        · rw [hj3]
          simp
        · intro i hi
          match i with
          | 0 => simpa [hsum] using hsel
          | i + 1 =>
              have := hj6 i (by omega)
              simpa using this

theorem selectLoop_balance_spec (amount minN : Nat) :
    ∀ (l sel : List Note) (sum : Nat),
      (selectLoop amount minN l sel sum = .error .insufficientBalance ↔
        sum + sumValues l < amount) := by
  intro l
  induction l with
  | nil =>
      intro sel sum
      unfold selectLoop
      split <;> simp_all [sumValues]
  | cons n rest ih =>
      intro sel sum
      unfold selectLoop
      by_cases hc : amount ≤ sum + n.value ∧ minN ≤ (sel ++ [n]).length
      · rw [if_pos hc]
        have : ¬(sum + sumValues (n :: rest) < amount) := by
          simp only [sumValues, List.map_cons, List.sum_cons]
          omega
        simp [this]
      · rw [if_neg hc, ih]
        simp only [sumValues, List.map_cons, List.sum_cons]
        omega

theorem selectLoop_count_spec (amount minN : Nat) :
    ∀ (l sel : List Note) (sum : Nat),
      ¬(amount ≤ sum ∧ minN ≤ sel.length) →
      (selectLoop amount minN l sel sum = .error .insufficientNoteCount ↔
        amount ≤ sum + sumValues l ∧ sel.length + l.length < minN) := by
  intro l
  induction l with
  | nil =>
      intro sel sum hsel
      unfold selectLoop
      split <;> simp_all [sumValues]
  | cons n rest ih =>
      intro sel sum hsel
      unfold selectLoop
      by_cases hc : amount ≤ sum + n.value ∧ minN ≤ (sel ++ [n]).length
      · rw [if_pos hc]
        have hnl : ¬(sel.length + (n :: rest).length < minN) := by
          have := hc.2
          simp only [List.length_append, List.length_cons, List.length_nil] at this ⊢
          omega
        refine ⟨fun h => by simp at h, fun h => absurd h.2 hnl⟩
      · rw [if_neg hc, ih (sel ++ [n]) (sum + n.value) hc]
        simp only [sumValues, List.map_cons, List.sum_cons, List.length_append,
          List.length_cons, List.length_nil]
        omega

/-- C5: `selectNotes` iterates the unspent notes de-duplicated by commitment
in epoch-ascending / value-descending order; a successful result is the
shortest prefix of that order whose sum reaches `amount` with at least
`minNotes` entries; `InsufficientBalance` is raised exactly when the total of
the candidates is below `amount`, and `InsufficientNoteCount` exactly when the
amount is reachable but the candidate count is below `minNotes`. -/
theorem C5_selectNotes_spec (nm : NoteManager) (amount minNotes : Nat)
    (hmin : 1 ≤ minNotes) :
    List.Perm (NoteManager.selectCandidates nm)
        (dedupByCommitment (nm.notes.filter (fun n => !n.spent)) []) ∧
    List.Sorted noteLE (NoteManager.selectCandidates nm) ∧
    (∀ r, NoteManager.selectNotes nm amount minNotes = .ok r →
      ∃ j, 1 ≤ j ∧ j ≤ (NoteManager.selectCandidates nm).length ∧
        r = (NoteManager.selectCandidates nm).take j ∧
        amount ≤ sumValues r ∧ minNotes ≤ r.length ∧
        ∀ i, i < j →
          ¬(amount ≤ sumValues ((NoteManager.selectCandidates nm).take i) ∧
            minNotes ≤ ((NoteManager.selectCandidates nm).take i).length)) ∧
    (NoteManager.selectNotes nm amount minNotes = .error .insufficientBalance ↔
      sumValues (NoteManager.selectCandidates nm) < amount) ∧
    (NoteManager.selectNotes nm amount minNotes = .error .insufficientNoteCount ↔
      amount ≤ sumValues (NoteManager.selectCandidates nm) ∧
      (NoteManager.selectCandidates nm).length < minNotes) := by
  have hmin1 : ¬(minNotes < 1) := by omega
  have hsel0 : ¬(amount ≤ (0 : Nat) ∧ minNotes ≤ ([] : List Note).length) := by
    simp
    omega
  refine ⟨?_, ?_, ?_, ?_, ?_⟩
  · exact List.perm_insertionSort noteLE _
  · exact List.sorted_insertionSort noteLE _
  · intro r hr
    unfold NoteManager.selectNotes at hr
    rw [if_neg hmin1] at hr
    obtain ⟨j, hj1, hj2, hj3, hj4, hj5, hj6⟩ :=
      selectLoop_ok_spec amount minNotes (NoteManager.selectCandidates nm) [] 0 r rfl hsel0 hr
    refine ⟨j, hj1, hj2, by simpa using hj3, hj4, hj5, ?_⟩
    intro i hi
    simpa using hj6 i hi
  · unfold NoteManager.selectNotes
    rw [if_neg hmin1]
    simpa using selectLoop_balance_spec amount minNotes (NoteManager.selectCandidates nm) [] 0
  · unfold NoteManager.selectNotes
    rw [if_neg hmin1]
    simpa using selectLoop_count_spec amount minNotes (NoteManager.selectCandidates nm) [] 0 hsel0

/-- C5 witness: the specification applied to a concrete three-note manager
(epochs 1, 1, 2 with values 1000, 2000, 3000), instantiating the
`InsufficientBalance` characterization. -/
theorem C5_selectNotes_spec_witness :
    NoteManager.selectNotes
        { notes := [mkNote 1000 (List.replicate 32 1) (some 1),
                    mkNote 2000 (List.replicate 32 2) (some 1),
                    mkNote 3000 (List.replicate 32 3) (some 2)],
          pendingNotes := [], spendingKeys := none, currentEpoch := 2,
          epochExpirySlots := DEFAULT_EXPIRY_SLOTS } 4000 1
        = Except.error SelectError.insufficientBalance ↔
      sumValues (NoteManager.selectCandidates
        { notes := [mkNote 1000 (List.replicate 32 1) (some 1),
                    mkNote 2000 (List.replicate 32 2) (some 1),
                    mkNote 3000 (List.replicate 32 3) (some 2)],
          pendingNotes := [], spendingKeys := none, currentEpoch := 2,
          epochExpirySlots := DEFAULT_EXPIRY_SLOTS }) < 4000 :=
  (C5_selectNotes_spec
    { notes := [mkNote 1000 (List.replicate 32 1) (some 1),
                mkNote 2000 (List.replicate 32 2) (some 1),
                mkNote 3000 (List.replicate 32 3) (some 2)],
      pendingNotes := [], spendingKeys := none, currentEpoch := 2,
      epochExpirySlots := DEFAULT_EXPIRY_SLOTS } 4000 1 (by decide)).2.2.2.1

/-- The 32-byte `epochBuf` of the epoch-aware nullifier computation (the
prover's witness builder): the epoch written little-endian into the low 8
bytes, high 24 bytes zero. -/
def epochFieldLE (epoch : Nat) : List Nat :=
  [epoch % 256, epoch / 2 ^ 8 % 256, epoch / 2 ^ 16 % 256, epoch / 2 ^ 24 % 256,
   epoch / 2 ^ 32 % 256, epoch / 2 ^ 40 % 256, epoch / 2 ^ 48 % 256, epoch / 2 ^ 56 % 256,
   0, 0, 0, 0, 0, 0, 0, 0, 0, 0, 0, 0, 0, 0, 0, 0, 0, 0, 0, 0, 0, 0, 0, 0]

/-- The 32-byte `leafIndexBuf` (`writeUInt32LE(leafIndex, 0)` into a 32-byte
buffer): the leaf index little-endian in the low 4 bytes. -/
def leafIndexFieldLE (leafIndex : Nat) : List Nat :=
  [leafIndex % 256, leafIndex / 2 ^ 8 % 256, leafIndex / 2 ^ 16 % 256, leafIndex / 2 ^ 24 % 256,
   0, 0, 0, 0, 0, 0, 0, 0, 0, 0, 0, 0, 0, 0, 0, 0, 0, 0, 0, 0, 0, 0, 0, 0, 0, 0, 0, 0]

/-- Little-endian value of a byte list (used to state what the encodings
above hold). -/
def natOfBytesLE (bs : List Nat) : Nat := bs.foldr (fun b acc => b + 256 * acc) 0

/-- Four-input Poseidon wrapper around an abstract permutation core, with the
same input reduction and output serialization as the shipped two-input
wrapper.  Modelled from the spec: the 4-input Poseidon the nullifier
derivation needs (`Poseidon4`) is not in the snapshot (the shipped
`poseidonHashBytes` caps at 3 inputs), so the core stays a parameter. -/
def poseidonHashBytes4 (core4 : Nat → Nat → Nat → Nat → Nat)
    (a b c d : List Nat) : List Nat :=
  fieldToBytes (modPrime (core4 (bytesToField a) (bytesToField b)
    (bytesToField c) (bytesToField d)))

/-- Modelled from the spec: the epoch-aware
`computeNullifier(commitment, nullifierKey, epoch, leafIndex)` of the crypto
module that is missing from the snapshot —
`Poseidon4(commitment, nullifier_key, epoch_as_field, leaf_index_as_field)`
with the epoch and leaf index written little-endian into the low bytes of
32-byte field inputs.  The byte encodings are taken verbatim from the
prover's witness builder (`epochBuf` / `leafIndexBuf`), which is in the
snapshot and computes the same nullifier. -/
def computeNullifier4 (core4 : Nat → Nat → Nat → Nat → Nat)
    (commitment nullifierKey : List Nat) (epoch leafIndex : Nat) : List Nat :=
  poseidonHashBytes4 core4 commitment nullifierKey
    (epochFieldLE epoch) (leafIndexFieldLE leafIndex)

/-- noteManager.ts `recomputeNullifier`: a no-op without spending keys or
while `epoch`/`leafIndex` are unset; otherwise replaces the note's nullifier
with the 4-input epoch-aware nullifier. -/
def NoteManager.recomputeNullifier (core4 : Nat → Nat → Nat → Nat → Nat)
    (nm : NoteManager) (note : Note) : Note :=
  match nm.spendingKeys with
  | none => note
  | some keys =>
      match note.epoch, note.leafIndex with
      | some e, some li =>
          { note with
            nullifier := computeNullifier4 core4 note.commitment keys.nullifierKey e li }
      | _, _ => note

/-- C1: for a note with `epoch` and `leafIndex` set (and spending keys
present), `recomputeNullifier` sets the nullifier to the 4-input Poseidon of
`(commitment, nullifier_key, epoch_as_field, leaf_index_as_field)`, where the
32-byte field inputs carry the epoch (resp. leaf index) little-endian in
their low 8 (resp. 4) bytes and zero elsewhere. -/
theorem C1_recomputeNullifier_spec (core4 : Nat → Nat → Nat → Nat → Nat)
    (nm : NoteManager) (note : Note) (keys : SpendingKeys) (e li : Nat)
    (hk : nm.spendingKeys = some keys) (he : note.epoch = some e)
    (hl : note.leafIndex = some li) :
    (NoteManager.recomputeNullifier core4 nm note).nullifier
      = poseidonHashBytes4 core4 note.commitment keys.nullifierKey
          (epochFieldLE e) (leafIndexFieldLE li) ∧
    (epochFieldLE e).length = 32 ∧
    (leafIndexFieldLE li).length = 32 ∧
    natOfBytesLE (epochFieldLE e) = e % 2 ^ 64 ∧
    natOfBytesLE (leafIndexFieldLE li) = li % 2 ^ 32 := by
  refine ⟨?_, rfl, rfl, ?_, ?_⟩
  · unfold NoteManager.recomputeNullifier
    rw [hk, he, hl]
    rfl
  · simp only [natOfBytesLE, epochFieldLE, List.foldr]
    omega
  · simp only [natOfBytesLE, leafIndexFieldLE, List.foldr]
    omega

/-- C1 witness: the specification applied to a concrete manager and a
confirmed note with epoch 5 and leaf index 3. -/
theorem C1_recomputeNullifier_spec_witness :
    (NoteManager.recomputeNullifier (fun _ _ _ _ => 0)
        { notes := [], pendingNotes := [],
          spendingKeys := some
            { spendingKey := List.replicate 32 3, viewingKey := List.replicate 32 2,
              nullifierKey := List.replicate 32 6, shieldedAddress := List.replicate 32 1 },
          currentEpoch := 5, epochExpirySlots := DEFAULT_EXPIRY_SLOTS }
        { mkNote 1000 (List.replicate 32 5) (some 5) with leafIndex := some 3 }).nullifier
      = poseidonHashBytes4 (fun _ _ _ _ => 0)
          (List.replicate 32 5) (List.replicate 32 6)
          (epochFieldLE 5) (leafIndexFieldLE 3) :=
  (C1_recomputeNullifier_spec (fun _ _ _ _ => 0)
    { notes := [], pendingNotes := [],
      spendingKeys := some
        { spendingKey := List.replicate 32 3, viewingKey := List.replicate 32 2,
          nullifierKey := List.replicate 32 6, shieldedAddress := List.replicate 32 1 },
      currentEpoch := 5, epochExpirySlots := DEFAULT_EXPIRY_SLOTS }
    { mkNote 1000 (List.replicate 32 5) (some 5) with leafIndex := some 3 }
    { spendingKey := List.replicate 32 3, viewingKey := List.replicate 32 2,
      nullifierKey := List.replicate 32 6, shieldedAddress := List.replicate 32 1 }
    5 3 rfl rfl rfl).1

/-- The prover's 32-byte `amountBuf` (`writeBigUInt64LE(amount, 0)` into a
zeroed 32-byte buffer): the amount little-endian in the low 8 bytes. -/
def amountBuf32 (amount : Nat) : List Nat :=
  [amount % 256, amount / 2 ^ 8 % 256, amount / 2 ^ 16 % 256, amount / 2 ^ 24 % 256,
   amount / 2 ^ 32 % 256, amount / 2 ^ 40 % 256, amount / 2 ^ 48 % 256, amount / 2 ^ 56 % 256,
   0, 0, 0, 0, 0, 0, 0, 0, 0, 0, 0, 0, 0, 0, 0, 0, 0, 0, 0, 0, 0, 0, 0, 0]

/-- The prover's `reduceBytesToField`: big-endian value reduced mod p,
re-serialized as 32 bytes. -/
def reduceBytesToField (bs : List Nat) : List Nat :=
  fieldToBytes (bytesToNatBE bs % BN254_PRIME)

/-- The MOCK_PROOFS public-input assembly of `proveWithdraw`: the order is
`root | nullifier | value_out | tx_anchor | pool_id | chain_id`, six
elements; `tx_anchor` and `chain_id` default to 32 zero bytes, `pool_id` is
the field-reduced pool config key (or zeros), and the nullifier is the legacy
two-input Poseidon of `(commitment, nullifierKey)`. -/
def mockWithdrawPublicInputs (core2 : Nat → Nat → Nat)
    (merkleRoot commitment nullifierKey : List Nat) (amount : Nat)
    (txAnchor chainId poolConfig : Option (List Nat)) : List (List Nat) :=
  [merkleRoot,
   poseidonHashBytes2 core2 commitment nullifierKey,
   amountBuf32 amount,
   txAnchor.getD (List.replicate 32 0),
   (match poolConfig with
    | some pk => reduceBytesToField pk
    | none => List.replicate 32 0),
   chainId.getD (List.replicate 32 0)]

/-- The non-mock path of `proveWithdraw`: each public signal from the prover
is rendered as 32 bytes (hex `padStart(64)`, i.e. `fieldToBytes` on the BN254
field elements snarkjs emits) and the count is required to be exactly 6 —
`withdraw circuit expected 6 public inputs` is thrown otherwise. -/
def formatWithdrawPublicSignals (publicSignals : List Nat) : Option (List (List Nat)) :=
  if publicSignals.length = 6 then some (publicSignals.map fieldToBytes) else none

theorem fieldToBytes_length (v : Nat) : (fieldToBytes v).length = 32 := rfl

/-- C2 counterexample: the withdraw public-input vector has six elements, not
seven — there is no epoch element (index 3 is the transaction anchor). -/
theorem C2_public_inputs_counterexample :
    (mockWithdrawPublicInputs (fun _ _ => 0) (List.replicate 32 1) (List.replicate 32 2)
        (List.replicate 32 3) 5 none none none).length = 6 ∧
    ¬((mockWithdrawPublicInputs (fun _ _ => 0) (List.replicate 32 1) (List.replicate 32 2)
        (List.replicate 32 3) 5 none none none).length = 7) := by
  exact ⟨rfl, by decide⟩

/-- C2 amended: both prover paths produce exactly six 32-byte public inputs
in the order `merkle_root, nullifier, amount, tx_anchor, pool_id, chain_id`,
with no epoch element; the non-mock path accepts exactly six signals. -/
theorem C2_withdraw_public_inputs (core2 : Nat → Nat → Nat)
    (merkleRoot commitment nullifierKey : List Nat) (amount : Nat)
    (txAnchor chainId poolConfig : Option (List Nat))
    (hroot : merkleRoot.length = 32)
    (hanchor : ∀ b, txAnchor = some b → b.length = 32)
    (hchain : ∀ b, chainId = some b → b.length = 32) :
    mockWithdrawPublicInputs core2 merkleRoot commitment nullifierKey amount
        txAnchor chainId poolConfig
      = [merkleRoot,
         poseidonHashBytes2 core2 commitment nullifierKey,
         amountBuf32 amount,
         txAnchor.getD (List.replicate 32 0),
         (match poolConfig with
          | some pk => reduceBytesToField pk
          | none => List.replicate 32 0),
         chainId.getD (List.replicate 32 0)] ∧
    (mockWithdrawPublicInputs core2 merkleRoot commitment nullifierKey amount
        txAnchor chainId poolConfig).length = 6 ∧
    (∀ x ∈ mockWithdrawPublicInputs core2 merkleRoot commitment nullifierKey amount
        txAnchor chainId poolConfig, x.length = 32) ∧
    (∀ sigs : List Nat,
      (formatWithdrawPublicSignals sigs).isSome ↔ sigs.length = 6) := by
  refine ⟨rfl, rfl, ?_, ?_⟩
  · intro x hx
    simp only [mockWithdrawPublicInputs, List.mem_cons, List.not_mem_nil, or_false] at hx
    rcases hx with h | h | h | h | h | h
    · rw [h]; exact hroot
    · rw [h]; exact rfl
    · rw [h]; exact rfl
    · rw [h]
      cases ha : txAnchor with
      | none => rfl
      | some b => simpa [ha] using hanchor b ha
    · rw [h]
      cases poolConfig with
      | none => rfl
      | some pk => exact rfl
    · rw [h]
      cases hc : chainId with
      | none => rfl
      | some b => simpa [hc] using hchain b hc
  · intro sigs
    unfold formatWithdrawPublicSignals
    by_cases hlen : sigs.length = 6 <;> simp [hlen]

/-- C2 witness: the amended statement applied to a concrete all-defaults
invocation. -/
theorem C2_withdraw_public_inputs_witness :
    (mockWithdrawPublicInputs (fun _ _ => 0) (List.replicate 32 1) (List.replicate 32 2)
        (List.replicate 32 3) 5 none none none).length = 6 :=
  (C2_withdraw_public_inputs (fun _ _ => 0) (List.replicate 32 1) (List.replicate 32 2)
    (List.replicate 32 3) 5 none none none (by decide) (by simp) (by simp)).2.1

/-- crypto.ts `serializeNote`:
`value(32 BE) || token(32) || owner(32) || blinding(32) || memo_len(u16 LE) || memo`. -/
def serializeNoteBytes (value : Nat) (token owner blinding : List Nat)
    (memo : Option (List Nat)) : List Nat :=
  let memoBytes := memo.getD []
  fieldToBytes value ++ token ++ owner ++ blinding ++
    [memoBytes.length % 256, memoBytes.length / 256 % 256] ++ memoBytes

/-- crypto.ts `encryptNote`: authenticated encryption of the serialized note
under the `viewingKey` parameter with a fresh random 24-byte nonce
(`nacl.secretbox` and the nonce sampling are passed in as parameters);
returns `{ encrypted, nonce }`. -/
def encryptNoteWith (secretbox : List Nat → List Nat → List Nat → List Nat)
    (nonce : List Nat) (noteData viewingKey : List Nat) : List Nat × List Nat :=
  (secretbox noteData nonce viewingKey, nonce)

/-- txBuilder.ts `buildDeposit` (output-note encryption): the note is
serialized with `randomness` in the blinding slot and then
`encryptNote(serialized, outputNote.owner)` is called — the key argument is
the note's `owner` field (the recipient's shielded address). -/
def buildDepositEncryptNote (secretbox : List Nat → List Nat → List Nat → List Nat)
    (nonce : List Nat) (outputNote : Note) : List Nat × List Nat :=
  encryptNoteWith secretbox nonce
    (serializeNoteBytes outputNote.value outputNote.token outputNote.owner
      outputNote.randomness outputNote.memo)
    outputNote.owner

/-- txBuilder.ts `buildTransfer` (per-output encryption): identical keying,
`encryptNote(serialized_i, outputTuple[i].owner)`. -/
def buildTransferEncryptNote (secretbox : List Nat → List Nat → List Nat → List Nat)
    (nonce : List Nat) (outputNote : Note) : List Nat × List Nat :=
  encryptNoteWith secretbox nonce
    (serializeNoteBytes outputNote.value outputNote.token outputNote.owner
      outputNote.randomness outputNote.memo)
    outputNote.owner

/-- C3: the deposit and transfer builders key the XSalsa20-Poly1305 box with
the output note's `owner` (the recipient's 32-byte shielded address), not
with a viewing key; for key material derived as in the key manager the two
differ, shown here on a concrete recipient whose viewing key differs from
their address — so the scanner, which opens boxes with the viewing key,
cannot decrypt what these builders emit. -/
theorem C3_encryption_keyed_by_owner :
    (∀ (secretbox : List Nat → List Nat → List Nat → List Nat) (nonce : List Nat) (note : Note),
      (buildDepositEncryptNote secretbox nonce note).1
        = secretbox
            (serializeNoteBytes note.value note.token note.owner note.randomness note.memo)
            nonce note.owner ∧
      (buildTransferEncryptNote secretbox nonce note).1
        = secretbox
            (serializeNoteBytes note.value note.token note.owner note.randomness note.memo)
            nonce note.owner) ∧
    (buildDepositEncryptNote (fun _ _ key => key) (List.replicate 24 9)
        (mkNote 1000 (List.replicate 32 5) (some 0))).1
      = (mkNote 1000 (List.replicate 32 5) (some 0)).owner ∧
    (mkNote 1000 (List.replicate 32 5) (some 0)).owner
      ≠ ({ spendingKey := List.replicate 32 3, viewingKey := List.replicate 32 2,
           nullifierKey := List.replicate 32 6,
           shieldedAddress := List.replicate 32 1 } : SpendingKeys).viewingKey := by
  exact ⟨fun _ _ _ => ⟨rfl, rfl⟩, rfl, by decide⟩

/-- noteStore.ts `NoteStoreData` (the decrypted JSON snapshot; `updatedAt` is
kept as opaque bytes). -/
structure NoteStoreData where
  version : Nat
  updatedAt : List Nat
  currentEpoch : Nat
  notes : List Note
  pendingNotes : List Note

/-- noteStore.ts `EncryptedFileStore.load` as a function of the on-disk bytes
(`none` = the file does not exist): shorter than the 24-byte nonce ⇒ null;
authentication failure of `nacl.secretbox.open` ⇒ null; JSON parse failure
(the surrounding try/catch) ⇒ null; schema version ≠ 1 ⇒ null; otherwise the
parsed snapshot.  The box opener and the JSON parser are parameters. -/
def EncryptedFileStore.load
    (secretboxOpen : List Nat → List Nat → List Nat → Option (List Nat))
    (jsonParse : List Nat → Option NoteStoreData)
    (key : List Nat) (file : Option (List Nat)) : Option NoteStoreData :=
  match file with
  | none => none
  | some raw =>
      if raw.length < 24 then none
      else
        match secretboxOpen (raw.drop 24) (raw.take 24) key with
        | none => none
        | some plaintext =>
            match jsonParse plaintext with
            | none => none
            | some data => if data.version ≠ 1 then none else some data

/-- C9: `load()` returns no data (never raises, never returns a snapshot) in
every failure case — absent file, truncation below the 24-byte nonce,
authentication failure (wrong key or corruption), JSON parse failure, or a
schema version other than 1 — and any snapshot it does return has version 1. -/
theorem C9_load_fails_closed
    (secretboxOpen : List Nat → List Nat → List Nat → Option (List Nat))
    (jsonParse : List Nat → Option NoteStoreData)
    (key : List Nat) (file : Option (List Nat)) :
    (file = none → EncryptedFileStore.load secretboxOpen jsonParse key file = none) ∧
    (∀ raw, file = some raw → raw.length < 24 →
      EncryptedFileStore.load secretboxOpen jsonParse key file = none) ∧
    (∀ raw, file = some raw → secretboxOpen (raw.drop 24) (raw.take 24) key = none →
      EncryptedFileStore.load secretboxOpen jsonParse key file = none) ∧
    (∀ raw pt, file = some raw →
      secretboxOpen (raw.drop 24) (raw.take 24) key = some pt → jsonParse pt = none →
      EncryptedFileStore.load secretboxOpen jsonParse key file = none) ∧
    (∀ raw pt d, file = some raw →
      secretboxOpen (raw.drop 24) (raw.take 24) key = some pt → jsonParse pt = some d →
      d.version ≠ 1 →
      EncryptedFileStore.load secretboxOpen jsonParse key file = none) ∧
    (∀ d, EncryptedFileStore.load secretboxOpen jsonParse key file = some d →
      d.version = 1) := by
  refine ⟨?_, ?_, ?_, ?_, ?_, ?_⟩
  · intro h
    rw [h]
    rfl
  · intro raw hf hlen
    rw [hf]
    show (if raw.length < 24 then none else _) = none
    rw [if_pos hlen]
  · intro raw hf hopen
    rw [hf]
    show (if raw.length < 24 then none else _) = none
    by_cases hlen : raw.length < 24
    · rw [if_pos hlen]
    · rw [if_neg hlen, hopen]
  · intro raw pt hf hopen hparse
    rw [hf]
    show (if raw.length < 24 then none else _) = none
    by_cases hlen : raw.length < 24
    · rw [if_pos hlen]
    · rw [if_neg hlen, hopen]
      show (match jsonParse pt with | none => none | some data => _) = none
      rw [hparse]
  · intro raw pt d hf hopen hparse hv
    rw [hf]
    show (if raw.length < 24 then none else _) = none
    by_cases hlen : raw.length < 24
    · rw [if_pos hlen]
    · rw [if_neg hlen, hopen]
      show (match jsonParse pt with | none => none | some data => _) = none
      rw [hparse]
      show (if d.version ≠ 1 then none else some d) = none
      rw [if_pos hv]
  · intro d hload
    unfold EncryptedFileStore.load at hload
    cases file with
    | none => cases hload
    | some raw =>
        dsimp only at hload
        by_cases hlen : raw.length < 24
        · rw [if_pos hlen] at hload
          cases hload
        · rw [if_neg hlen] at hload
          cases hopen : secretboxOpen (raw.drop 24) (raw.take 24) key with
          | none => rw [hopen] at hload; cases hload
          | some pt =>
              rw [hopen] at hload
              dsimp only at hload
              cases hparse : jsonParse pt with
              | none => rw [hparse] at hload; cases hload
              | some d0 =>
                  rw [hparse] at hload
                  dsimp only at hload
                  by_cases hv : d0.version ≠ 1
                  · rw [if_pos hv] at hload
                    cases hload
                  · rw [if_neg hv] at hload
                    cases hload
                    omega

/-- C9 witness: the theorem applied at concrete parameters — a missing file
loads as no data. -/
theorem C9_load_fails_closed_witness :
    EncryptedFileStore.load (fun _ _ _ => none) (fun _ => none) (List.replicate 32 2) none
      = none :=
  (C9_load_fails_closed (fun _ _ _ => none) (fun _ => none) (List.replicate 32 2) none).1 rfl
